import Mathlib

/-!
Verification of `antlir2_vm/src/share.rs` (virtiofs share setup for a QEMU VM).

Modelling conventions:
* A Unix `PathBuf`/`OsString` is an arbitrary byte sequence, embedded as `List Nat`
  (each element a byte value < 256 in practice; validity of UTF-8 is what matters).
* Rust `Path::to_str` is UTF-8 decoding; it is embedded as `pathToStr` built on a
  full UTF-8 decoder (`utf8Decode`) matching `core::str::from_utf8` validity
  (rejecting overlong encodings, surrogates, and code points above U+10FFFF).
* A Rust `String` is embedded as a Lean `String`.
* `expect`-induced panics are embedded as `Option.none` results.
* The external `systemd-escape` process and the filesystem are embedded as oracles
  (`Escaper`, `IoOracle`) that the operations are parameterised over.
-/

/-- Bytes of an OS path (`PathBuf` on Unix: an arbitrary byte sequence). -/
abbrev PathB := List Nat

/-- UTF-8 encoding of one character (scalar value), as byte values. -/
def utf8EncodeChar (c : Char) : List Nat :=
  let n := c.toNat
  if n < 0x80 then [n]
  else if n < 0x800 then [0xC0 + n / 0x40, 0x80 + n % 0x40]
  else if n < 0x10000 then [0xE0 + n / 0x1000, 0x80 + n / 0x40 % 0x40, 0x80 + n % 0x40]
  else [0xF0 + n / 0x40000, 0x80 + n / 0x1000 % 0x40, 0x80 + n / 0x40 % 0x40, 0x80 + n % 0x40]

/-- UTF-8 bytes of a string (Rust `String::into_bytes` / `as_bytes`). -/
def strBytes (s : String) : List Nat :=
  (s.data.map utf8EncodeChar).flatten

/-- Full UTF-8 decoder, matching the validity rules of Rust `core::str::from_utf8`:
continuation bytes are `0x80..0xBF`, overlong encodings are rejected (first byte
`0xC0`/`0xC1` invalid, `0xE0` needs a second byte at least `0xA0`, `0xF0` needs a
second byte at least `0x90`), surrogates are rejected (`0xED` caps the second byte
below `0xA0`), and code points above U+10FFFF are rejected (first byte at most
`0xF4`, and `0xF4` caps the second byte below `0x90`). -/
def utf8Decode : List Nat → Option (List Char)
  | [] => some []
  | b :: rest =>
    if b < 0x80 then
      (utf8Decode rest).map (fun cs => Char.ofNat b :: cs)
    else if b < 0xC2 then none
    else if b < 0xE0 then
      match rest with
      | c1 :: rest2 =>
        if 0x80 ≤ c1 && c1 < 0xC0 then
          (utf8Decode rest2).map (fun cs => Char.ofNat ((b - 0xC0) * 0x40 + (c1 - 0x80)) :: cs)
        else none
      | [] => none
    else if b < 0xF0 then
      match rest with
      | c1 :: c2 :: rest3 =>
        if (if b = 0xE0 then 0xA0 ≤ c1 else 0x80 ≤ c1) &&
           (if b = 0xED then c1 < 0xA0 else c1 < 0xC0) &&
           (0x80 ≤ c2 && c2 < 0xC0) then
          (utf8Decode rest3).map (fun cs =>
            Char.ofNat ((b - 0xE0) * 0x1000 + (c1 - 0x80) * 0x40 + (c2 - 0x80)) :: cs)
        else none
      | _ => none
    else if b < 0xF5 then
      match rest with
      | c1 :: c2 :: c3 :: rest4 =>
        if (if b = 0xF0 then 0x90 ≤ c1 else 0x80 ≤ c1) &&
           (if b = 0xF4 then c1 < 0x90 else c1 < 0xC0) &&
           (0x80 ≤ c2 && c2 < 0xC0) && (0x80 ≤ c3 && c3 < 0xC0) then
          (utf8Decode rest4).map (fun cs =>
            Char.ofNat ((b - 0xF0) * 0x40000 + (c1 - 0x80) * 0x1000 +
              (c2 - 0x80) * 0x40 + (c3 - 0x80)) :: cs)
        else none
      | _ => none
    else none

/-- Rust `Path::to_str`: succeeds exactly when the bytes are valid UTF-8. -/
def pathToStr (p : PathB) : Option String :=
  (utf8Decode p).map fun cs => String.mk cs

/-- Rust `Path::join` on Unix: an absolute right operand (leading `/`, byte `0x2F`)
replaces the base; otherwise the right operand is appended, inserting a `/`
separator unless the base is empty or already ends in `/`. -/
def pathJoin (base : PathB) (child : PathB) : PathB :=
  if child.head? = some 0x2F then child
  else if base = [] then child
  else if base.getLast? = some 0x2F then base ++ child
  else base ++ 0x2F :: child

/-- An abstract I/O error carried by failing filesystem operations. -/
structure IoError where
  code : Nat
deriving DecidableEq, Repr

/-- The error taxonomy of `share.rs` (`enum ShareError`). The source stores the
lossily-decoded path string in `InvalidMountTagError`; we record the path bytes
it was decoded from, and `VirtiofsdError` / `MountUnitGenerationError` carry the
underlying I/O error. -/
inductive ShareError where
  | invalidMountTagError (path : PathB)
  | virtiofsdError (e : IoError)
  | mountUnitGenerationError (e : IoError)
  | emptyShareError
deriving DecidableEq, Repr

/-- `ShareOpts` (from `types.rs`, used by `share.rs`): the caller-supplied options
of one share. Field types as used by the source: `path: PathBuf`,
`read_only: bool`, `mount_tag: Option<String>`. -/
structure ShareOpts where
  path : PathB
  read_only : Bool
  mount_tag : Option String
deriving DecidableEq, Repr

/-- `struct VirtiofsShare`: user options, index, and state directory. -/
structure VirtiofsShare where
  opts : ShareOpts
  id : Nat
  state_dir : PathB
deriving DecidableEq, Repr

/-- `VirtiofsShare::mount_tag`: the explicit tag if set, else `fs{id}`. -/
def VirtiofsShare.mount_tag (s : VirtiofsShare) : String :=
  match s.opts.mount_tag with
  | some tag => tag
  | none => "fs" ++ toString s.id

/-- `VirtiofsShare::chardev_node`: `fs_chardev{id}`. -/
def VirtiofsShare.chardev_node (s : VirtiofsShare) : String :=
  "fs_chardev" ++ toString s.id

/-- `VirtiofsShare::socket_path`: `state_dir.join(mount_tag)`. -/
def VirtiofsShare.socket_path (s : VirtiofsShare) : PathB :=
  pathJoin s.state_dir (strBytes s.mount_tag)

/-- `VirtiofsShare::mount_unit_content`: renders the mount unit text. The source
calls `self.opts.path.to_str().expect("Invalid UTF-8")`, a panic on non-UTF-8
paths, embedded here as `none`. -/
def VirtiofsShare.mount_unit_content (s : VirtiofsShare) : Option String :=
  (pathToStr s.opts.path).map fun mountpoint =>
    "[Unit]\nDescription=Mount " ++ s.mount_tag ++ " at " ++ mountpoint ++
    "\nRequires=systemd-modules-load.service\nAfter=systemd-modules-load.service" ++
    "\nBefore=local-fs.target\n\n[Mount]\nWhat=" ++ s.mount_tag ++
    "\nWhere=" ++ mountpoint ++ "\nType=virtiofs\nOptions=" ++
    (if s.opts.read_only then "ro" else "rw")

/-- `VirtiofsShare::qemu_args`: the `-chardev`/`-device` token list. The source
calls `self.socket_path().to_str().expect(..)`, a panic on non-UTF-8 socket
paths, embedded here as `none`. -/
def VirtiofsShare.qemu_args (s : VirtiofsShare) : Option (List String) :=
  (pathToStr s.socket_path).map fun sock =>
    ["-chardev",
     "socket,id=" ++ s.chardev_node ++ ",path=" ++ sock,
     "-device",
     "vhost-user-fs-pci,queue-size=1024,chardev=" ++ s.chardev_node ++ ",tag=" ++ s.mount_tag]

/-- The captured output of a finished external process (`std::process::Output`). -/
structure ProcessOutput where
  status : Int
  stdout : List Nat
  stderr : List Nat

/-- Oracle for the external `systemd-escape --suffix=mount --path <path>`
invocation made by `mount_unit_name`: `none` means the invocation could not be
run (the `Command::output()` call itself failed). -/
def Escaper := PathB → Option ProcessOutput

/-- Rust `char::is_whitespace`: the Unicode `White_Space` property. -/
def rustIsWhitespace (c : Char) : Bool :=
  c.toNat ∈ [0x09, 0x0A, 0x0B, 0x0C, 0x0D, 0x20, 0x85, 0xA0, 0x1680,
    0x2000, 0x2001, 0x2002, 0x2003, 0x2004, 0x2005, 0x2006, 0x2007, 0x2008,
    0x2009, 0x200A, 0x2028, 0x2029, 0x202F, 0x205F, 0x3000]

/-- Rust `str::trim` on a character list: drop leading and trailing whitespace. -/
def trimChars (cs : List Char) : List Char :=
  ((cs.dropWhile rustIsWhitespace).reverse.dropWhile rustIsWhitespace).reverse

/-- Rust `str::trim`. -/
def rustTrim (s : String) : String :=
  String.mk (trimChars s.data)

/-- `VirtiofsShare::mount_unit_name`: runs the escaper on `opts.path`; failure to
run it, or non-UTF-8 standard output, yields `InvalidMountTagError`; otherwise
the trimmed standard output is returned. The exit status of the escaper is never
examined by the source. -/
def VirtiofsShare.mount_unit_name (esc : Escaper) (s : VirtiofsShare) :
    Except ShareError String :=
  match esc s.opts.path with
  | none => .error (.invalidMountTagError s.opts.path)
  | some out =>
    match utf8Decode out.stdout with
    | none => .error (.invalidMountTagError s.opts.path)
    | some cs => .ok (rustTrim (String.mk cs))

/-- `struct Shares`: the share set, VM memory size in MiB, unit file directory. -/
structure Shares where
  shares : List VirtiofsShare
  mem_mb : Nat
  unit_files_dir : PathB

/-- `Shares::new`: rejects an empty share list with `EmptyShareError`. -/
def Shares.new (shares : List VirtiofsShare) (mem_mb : Nat) (unit_files_dir : PathB) :
    Except ShareError Shares :=
  if shares.isEmpty then .error .emptyShareError
  else .ok ⟨shares, mem_mb, unit_files_dir⟩

/-- `Shares::setup_share_qemu_args`: the legacy 9p bootstrap export. The source
calls `unit_files_dir.to_str().expect(..)`, a panic on non-UTF-8, hence `none`. -/
def Shares.setup_share_qemu_args (s : Shares) : Option (List String) :=
  (pathToStr s.unit_files_dir).map fun p =>
    ["-virtfs",
     "local,path=" ++ p ++ ",security_model=none,multidevs=remap,mount_tag=exports,readonly=on"]

/-- `Shares::memory_file_qemu_args`: the shared memory backend arguments. -/
def Shares.memory_file_qemu_args (s : Shares) : List String :=
  ["-object",
   "memory-backend-memfd,id=mem,share=on,size=" ++ toString s.mem_mb ++ "M",
   "-numa",
   "node,memdev=mem"]

/-- `flat_map` over the share list of `Shares::qemu_args`, with any per-share
panic propagated. -/
def collectShareArgs : List VirtiofsShare → Option (List String)
  | [] => some []
  | sh :: rest =>
    match sh.qemu_args, collectShareArgs rest with
    | some l, some ls => some (l ++ ls)
    | _, _ => none

/-- `Shares::qemu_args`: every share contribution in list order, then the setup
share arguments, then the memory backend arguments. -/
def Shares.qemu_args (s : Shares) : Option (List String) :=
  match collectShareArgs s.shares, s.setup_share_qemu_args with
  | some args, some setup => some (args ++ setup ++ s.memory_file_qemu_args)
  | _, _ => none

/-- The visible filesystem state: a finite map from path to file contents,
as an association list without duplicate keys. -/
abbrev Fs := List (PathB × List Nat)

/-- Look a file up by path. -/
def fsGet : Fs → PathB → Option (List Nat)
  | [], _ => none
  | (q, c) :: rest, p => if q = p then some c else fsGet rest p

/-- Create or replace a file (`File::create` truncates an existing file, and
`write_all` replaces the empty contents). -/
def fsInsert : Fs → PathB → List Nat → Fs
  | [], p, c => [(p, c)]
  | (q, c0) :: rest, p, c => if q = p then (p, c) :: rest else (q, c0) :: fsInsert rest p c

/-- Oracle deciding which filesystem operations of `generate_unit_files` fail:
`createErr p` is the error `File::create` at `p` reports (or `none` for
success), `writeErr p` likewise for `write_all`. -/
structure IoOracle where
  createErr : PathB → Option IoError
  writeErr : PathB → Option IoError

/-- The `try_for_each` loop body of `Shares::generate_unit_files`, iterated over
the share list in order against a filesystem state: per share, compute the unit
name (fallible), render the contents (`mount_unit_content`, a panic — `none` —
on a non-UTF-8 path), create the file, write the bytes; the first error stops
the iteration, leaving earlier writes in place. The overall result is `none`
when a panic occurred, otherwise the final filesystem and the loop result. -/
def genUnitFilesLoop (esc : Escaper) (disk : IoOracle) (dir : PathB) :
    List VirtiofsShare → Fs → Option (Fs × Except ShareError Unit)
  | [], fs => some (fs, .ok ())
  | share :: rest, fs =>
    match share.mount_unit_name esc with
    | .error e => some (fs, .error e)
    | .ok name =>
      match share.mount_unit_content with
      | none => none
      | some content =>
        let p := pathJoin dir (strBytes name)
        match disk.createErr p with
        | some e => some (fs, .error (.mountUnitGenerationError e))
        | none =>
          match disk.writeErr p with
          | some e => some (fsInsert fs p [], .error (.mountUnitGenerationError e))
          | none => genUnitFilesLoop esc disk dir rest (fsInsert (fsInsert fs p []) p (strBytes content))

/-- `Shares::generate_unit_files`, relative to the escaper and disk oracles and
an initial filesystem state. -/
def Shares.generate_unit_files (esc : Escaper) (disk : IoOracle) (s : Shares) (fs : Fs) :
    Option (Fs × Except ShareError Unit) :=
  genUnitFilesLoop esc disk s.unit_files_dir s.shares fs

/-- The unit name `generate_unit_files` computes for a share, defaulting to `""`
when `mount_unit_name` fails (only used under hypotheses that rule failure out). -/
def unitNameOf (esc : Escaper) (sh : VirtiofsShare) : String :=
  match sh.mount_unit_name esc with
  | .ok n => n
  | .error _ => ""

/-- The path of the unit file `generate_unit_files` writes for a share. -/
def unitPathOf (esc : Escaper) (dir : PathB) (sh : VirtiofsShare) : PathB :=
  pathJoin dir (strBytes (unitNameOf esc sh))

/-- The bytes `generate_unit_files` writes for a share (contents defaulting to
`""` in the panic case, which the hypotheses rule out where this is used). -/
def contentBytesOf (sh : VirtiofsShare) : List Nat :=
  strBytes (sh.mount_unit_content.getD "")

/-- Outcome of processing one single share inside `generate_unit_files`. -/
inductive StepOutcome where
  | ok
  | err (e : ShareError)
  | panicked
deriving DecidableEq

/-- What processing one share inside `generate_unit_files` would do: succeed,
stop the loop with an error, or panic on a non-UTF-8 path. -/
def stepOutcome (esc : Escaper) (disk : IoOracle) (dir : PathB) (sh : VirtiofsShare) :
    StepOutcome :=
  match sh.mount_unit_name esc with
  | .error e => .err e
  | .ok name =>
    match sh.mount_unit_content with
    | none => .panicked
    | some _ =>
      let p := pathJoin dir (strBytes name)
      match disk.createErr p with
      | some e => .err (.mountUnitGenerationError e)
      | none =>
        match disk.writeErr p with
        | some e => .err (.mountUnitGenerationError e)
        | none => .ok

/-! ## Concrete fixtures (shared by several witnesses and counterexamples) -/

/-- The read-only share of the source test `test_virtiofs_share`:
path `/this/is/a/test`, index 3, state dir `/tmp/test`, no explicit tag. -/
def shareFix : VirtiofsShare :=
  ⟨⟨strBytes "/this/is/a/test", true, none⟩, 3, strBytes "/tmp/test"⟩

/-! ## Theorems -/

/-- C1: a `VirtiofsShare` with an unset `mount_tag` derives
`mount_tag = "fs{id}"`, `chardev_node = "fs_chardev{id}"`, and
`socket_path = state_dir.join(mount_tag)`. -/
theorem virtiofs_share_default_naming (opts : ShareOpts) (id : Nat) (sd : PathB)
    (h : opts.mount_tag = none) :
    (VirtiofsShare.mk opts id sd).mount_tag = "fs" ++ toString id ∧
    (VirtiofsShare.mk opts id sd).chardev_node = "fs_chardev" ++ toString id ∧
    (VirtiofsShare.mk opts id sd).socket_path =
      pathJoin sd (strBytes ("fs" ++ toString id)) := by
  refine ⟨?_, rfl, ?_⟩ <;>
    simp [VirtiofsShare.mount_tag, VirtiofsShare.socket_path, h]

/-- C1 witness: the concrete scenario of the source test (`index = 3`,
state dir `/tmp/test`, no explicit tag). -/
theorem virtiofs_share_default_naming_witness :
    shareFix.mount_tag = "fs" ++ toString 3 ∧
    shareFix.chardev_node = "fs_chardev" ++ toString 3 ∧
    shareFix.socket_path = pathJoin (strBytes "/tmp/test") (strBytes ("fs" ++ toString 3)) :=
  virtiofs_share_default_naming ⟨strBytes "/this/is/a/test", true, none⟩ 3 (strBytes "/tmp/test") rfl

/-- C2 (amended): whenever the socket path is valid UTF-8 text (so the
`to_str().expect(..)` in the source does not panic), `qemu_args` yields exactly
four tokens: `-chardev` with a value binding `chardev_node` to the unix socket
at the socket path, then `-device` with a `vhost-user-fs-pci` value carrying
`queue-size=1024`, the same chardev id, and `tag = mount_tag`. -/
theorem qemu_args_four_tokens (sh : VirtiofsShare) (sock : String)
    (h : pathToStr sh.socket_path = some sock) :
    sh.qemu_args = some
      ["-chardev",
       "socket,id=" ++ sh.chardev_node ++ ",path=" ++ sock,
       "-device",
       "vhost-user-fs-pci,queue-size=1024,chardev=" ++ sh.chardev_node ++ ",tag=" ++ sh.mount_tag] ∧
    ∀ l, sh.qemu_args = some l → l.length = 4 := by
  have hq : sh.qemu_args = some
      ["-chardev",
       "socket,id=" ++ sh.chardev_node ++ ",path=" ++ sock,
       "-device",
       "vhost-user-fs-pci,queue-size=1024,chardev=" ++ sh.chardev_node ++ ",tag=" ++ sh.mount_tag] := by
    simp [VirtiofsShare.qemu_args, h]
  refine ⟨hq, ?_⟩
  intro l hl
  rw [hq] at hl
  cases hl
  rfl

/-- C2 witness: the source test scenario, yielding the exact four tokens the
test asserts. -/
theorem qemu_args_four_tokens_witness :
    shareFix.qemu_args = some
      ["-chardev",
       "socket,id=" ++ shareFix.chardev_node ++ ",path=" ++ "/tmp/test/fs3",
       "-device",
       "vhost-user-fs-pci,queue-size=1024,chardev=" ++ shareFix.chardev_node ++ ",tag=" ++ shareFix.mount_tag] :=
  (qemu_args_four_tokens shareFix "/tmp/test/fs3" (by decide)).1

/-- C2 counterexample: with a state directory that is not valid UTF-8 (the
single byte `0xFF`), the source's `socket_path().to_str().expect(..)` panics,
so `qemu_args` returns no tokens at all — refuting the claim that every
`VirtiofsShare` gets exactly four tokens. -/
theorem qemu_args_non_utf8_state_dir :
    (VirtiofsShare.mk ⟨strBytes "/x", true, none⟩ 0 [0xFF]).qemu_args = none := by
  decide

/-- C4: the §6 template, modelled from the spec; `tag`, `mountpoint` and the
`Options` field are substituted into the fixed frame. -/
def specUnitText (tag mountpoint optionsField : String) : String :=
  "[Unit]\nDescription=Mount " ++ tag ++ " at " ++ mountpoint ++
  "\nRequires=systemd-modules-load.service\nAfter=systemd-modules-load.service" ++
  "\nBefore=local-fs.target\n\n[Mount]\nWhat=" ++ tag ++
  "\nWhere=" ++ mountpoint ++ "\nType=virtiofs\nOptions=" ++ optionsField

/-- C4: `mount_unit_content` is a pure function of the share value; whenever
the path decodes as UTF-8 text it renders exactly the §6 template, and the
`Options` field is exactly `"ro"` iff `read_only` is true (else `"rw"`). -/
theorem mount_unit_content_matches_template (sh : VirtiofsShare) (mp : String)
    (h : pathToStr sh.opts.path = some mp) :
    sh.mount_unit_content =
      some (specUnitText sh.mount_tag mp (if sh.opts.read_only then "ro" else "rw")) ∧
    ((if sh.opts.read_only then "ro" else "rw") = "ro" ↔ sh.opts.read_only = true) := by
  constructor
  · simp [VirtiofsShare.mount_unit_content, specUnitText, h]
  · cases sh.opts.read_only <;> decide

/-- C4 witness: the source test scenario renders the exact text asserted by the
test, with `Options=ro`. -/
theorem mount_unit_content_matches_template_witness :
    shareFix.mount_unit_content =
      some (specUnitText shareFix.mount_tag "/this/is/a/test"
        (if shareFix.opts.read_only then "ro" else "rw")) :=
  (mount_unit_content_matches_template shareFix "/this/is/a/test" (by decide)).1

/-- C5 (amended): `mount_unit_content` succeeds exactly when `opts.path` is
valid UTF-8; on a non-UTF-8 path the source panics (`expect("Invalid UTF-8")`). -/
theorem mount_unit_content_some_iff_utf8 (sh : VirtiofsShare) :
    sh.mount_unit_content.isSome ↔ (utf8Decode sh.opts.path).isSome := by
  simp [VirtiofsShare.mount_unit_content, pathToStr]

/-- C5 counterexample: for the share options with path the single byte `0xFF`
(not valid UTF-8), `mount_unit_content` panics instead of returning text —
refuting the claim that rendering succeeds for every `ShareOptions`. -/
theorem mount_unit_content_non_utf8_path :
    (VirtiofsShare.mk ⟨[0xFF], true, none⟩ 0 []).mount_unit_content = none := by
  decide

/-- C8: `Shares::new` fails with `EmptyShareError` exactly on the empty share
list, and succeeds (storing the fields unchanged) on every non-empty list, for
any `mem_mb` and `unit_files_dir`. -/
theorem shares_new_empty_iff (shares : List VirtiofsShare) (mem_mb : Nat) (dir : PathB) :
    (shares = [] → Shares.new shares mem_mb dir = .error .emptyShareError) ∧
    (shares ≠ [] → Shares.new shares mem_mb dir = .ok ⟨shares, mem_mb, dir⟩) := by
  constructor
  · intro h
    subst h
    rfl
  · intro h
    simp [Shares.new, h]

/-- C8 witness: the empty list is rejected; the singleton list of the source
test is accepted. -/
theorem shares_new_empty_iff_witness :
    Shares.new [] 7 [] = .error .emptyShareError ∧
    Shares.new [shareFix] 1024 [] = .ok ⟨[shareFix], 1024, []⟩ :=
  ⟨(shares_new_empty_iff [] 7 []).1 rfl,
   (shares_new_empty_iff [shareFix] 1024 []).2 (List.cons_ne_nil _ _)⟩

/-- C9: `memory_file_qemu_args` is exactly the four tokens `-object`,
`memory-backend-memfd,id=mem,share=on,size={mem_mb}M` (decimal rendering of
`mem_mb` followed by `M`), `-numa`, `node,memdev=mem`. -/
theorem memory_backend_args_exact (s : Shares) :
    s.memory_file_qemu_args =
      ["-object",
       "memory-backend-memfd,id=mem,share=on,size=" ++ Nat.repr s.mem_mb ++ "M",
       "-numa",
       "node,memdev=mem"] ∧
    s.memory_file_qemu_args.length = 4 :=
  ⟨rfl, rfl⟩

/-- After `dropWhile p`, the head (if any) does not satisfy `p`. -/
theorem head_dropWhile_false {α : Type} (p : α → Bool) :
    ∀ (l : List α) (c : α), (l.dropWhile p).head? = some c → p c = false := by
  intro l
  induction l with
  | nil =>
    intro c h
    simp [List.dropWhile] at h
  | cons a t ih =>
    intro c h
    by_cases hp : p a
    · rw [List.dropWhile_cons_of_pos hp] at h
      exact ih c h
    · rw [List.dropWhile_cons_of_neg hp] at h
      simp at h
      subst h
      simpa using hp

/-- The last character of a trimmed character list is never whitespace. -/
theorem trimChars_getLast_not_ws (cs : List Char) (c : Char)
    (h : (trimChars cs).getLast? = some c) : rustIsWhitespace c = false := by
  unfold trimChars at h
  rw [List.getLast?_reverse] at h
  exact head_dropWhile_false rustIsWhitespace _ c h

/-- `mount_unit_name` when the escaper invocation cannot be run. -/
theorem mount_unit_name_of_none (esc : Escaper) (sh : VirtiofsShare)
    (h : esc sh.opts.path = none) :
    sh.mount_unit_name esc = .error (.invalidMountTagError sh.opts.path) := by
  simp only [VirtiofsShare.mount_unit_name, h]

/-- `mount_unit_name` when the escaper output is not valid UTF-8. -/
theorem mount_unit_name_of_bad_utf8 (esc : Escaper) (sh : VirtiofsShare)
    (out : ProcessOutput) (h : esc sh.opts.path = some out)
    (hd : utf8Decode out.stdout = none) :
    sh.mount_unit_name esc = .error (.invalidMountTagError sh.opts.path) := by
  simp only [VirtiofsShare.mount_unit_name, h, hd]

/-- `mount_unit_name` when the escaper ran and produced UTF-8 output. -/
theorem mount_unit_name_of_ok (esc : Escaper) (sh : VirtiofsShare)
    (out : ProcessOutput) (cs : List Char) (h : esc sh.opts.path = some out)
    (hd : utf8Decode out.stdout = some cs) :
    sh.mount_unit_name esc = .ok (rustTrim (String.mk cs)) := by
  simp only [VirtiofsShare.mount_unit_name, h, hd]

/-- C6 (amended): `mount_unit_name` fails, always with `InvalidMountTagError`,
exactly when the escaper invocation cannot be run or its standard output is not
valid UTF-8 text; the exit status of the escaper is never examined, and in every
other case the trimmed standard output is returned. -/
theorem mount_unit_name_error_iff (esc : Escaper) (sh : VirtiofsShare) :
    ((∃ p, sh.mount_unit_name esc = .error (.invalidMountTagError p)) ↔
      (esc sh.opts.path = none ∨
        ∃ out, esc sh.opts.path = some out ∧ utf8Decode out.stdout = none)) ∧
    (∀ e, sh.mount_unit_name esc = .error e → ∃ p, e = .invalidMountTagError p) ∧
    (∀ out cs, esc sh.opts.path = some out → utf8Decode out.stdout = some cs →
      sh.mount_unit_name esc = .ok (rustTrim (String.mk cs))) := by
  cases hesc : esc sh.opts.path with
  | none =>
    have hm := mount_unit_name_of_none esc sh hesc
    refine ⟨⟨fun _ => Or.inl rfl, fun _ => ⟨sh.opts.path, hm⟩⟩, ?_, ?_⟩
    · intro e he
      rw [hm] at he
      cases he
      exact ⟨_, rfl⟩
    · intro out cs hout
      exact Option.noConfusion hout
  | some out =>
    cases hdec : utf8Decode out.stdout with
    | none =>
      have hm := mount_unit_name_of_bad_utf8 esc sh out hesc hdec
      refine ⟨⟨fun _ => Or.inr ⟨out, rfl, hdec⟩, fun _ => ⟨sh.opts.path, hm⟩⟩, ?_, ?_⟩
      · intro e he
        rw [hm] at he
        cases he
        exact ⟨_, rfl⟩
      · intro out2 cs hout2 hdec2
        cases hout2
        rw [hdec] at hdec2
        cases hdec2
    | some cs =>
      have hm := mount_unit_name_of_ok esc sh out cs hesc hdec
      refine ⟨⟨?_, ?_⟩, ?_, ?_⟩
      · intro ⟨p, hp⟩
        rw [hm] at hp
        cases hp
      · intro hor
        cases hor with
        | inl h0 => exact Option.noConfusion h0
        | inr h0 =>
          obtain ⟨out2, hout2, hdec2⟩ := h0
          cases hout2
          rw [hdec] at hdec2
          cases hdec2
      · intro e he
        rw [hm] at he
        cases he
      · intro out2 cs2 hout2 hdec2
        cases hout2
        rw [hdec] at hdec2
        cases hdec2
        exact hm

/-- C6 witness: a concrete escaper that succeeds with output
`this-is-a-test.mount` followed by a newline; the share gets that unit name. -/
theorem mount_unit_name_error_iff_witness :
    shareFix.mount_unit_name (fun _ => some ⟨0, strBytes "this-is-a-test.mount\n", []⟩) =
      .ok (rustTrim (String.mk ("this-is-a-test.mount\n".data))) :=
  (mount_unit_name_error_iff (fun _ => some ⟨0, strBytes "this-is-a-test.mount\n", []⟩) shareFix).2.2
    ⟨0, strBytes "this-is-a-test.mount\n", []⟩ ("this-is-a-test.mount\n".data) rfl (by decide)

/-- A concrete escaper that exits with the non-zero status 1 while printing
`foo.mount` and a newline on standard output. -/
def escExitOne : Escaper := fun _ => some ⟨1, strBytes "foo.mount\n", []⟩

/-- C6 counterexample: the escaper exits with status 1, yet `mount_unit_name`
succeeds and returns the trimmed output — the source never inspects the exit
status, refuting the claim that a non-zero exit status is a failure. -/
theorem mount_unit_name_nonzero_exit_ok :
    escExitOne (strBytes "/x") = some ⟨1, strBytes "foo.mount\n", []⟩ ∧
    (VirtiofsShare.mk ⟨strBytes "/x", true, none⟩ 0 []).mount_unit_name escExitOne =
      .ok "foo.mount" :=
  ⟨rfl, rfl⟩

/-- C10: on a run where the escaper produced UTF-8 output, `mount_unit_name`
returns exactly the stdout text with leading and trailing whitespace removed,
and the returned name never ends in whitespace — in particular not in the
trailing newline the escaper emits. -/
theorem mount_unit_name_trims_stdout (esc : Escaper) (sh : VirtiofsShare)
    (out : ProcessOutput) (cs : List Char)
    (h1 : esc sh.opts.path = some out) (h2 : utf8Decode out.stdout = some cs) :
    sh.mount_unit_name esc = .ok (rustTrim (String.mk cs)) ∧
    (∀ r c, sh.mount_unit_name esc = .ok r → r.data.getLast? = some c →
      rustIsWhitespace c = false) ∧
    rustIsWhitespace '\n' = true := by
  have hok := mount_unit_name_of_ok esc sh out cs h1 h2
  refine ⟨hok, ?_, by decide⟩
  intro r c hr hc
  rw [hok] at hr
  cases hr
  exact trimChars_getLast_not_ws cs c hc

/-- C10 witness: with stdout `x.mount` followed by a newline, the returned name
is the trimmed `x.mount`, whose last character `t` is not whitespace. -/
theorem mount_unit_name_trims_stdout_witness :
    shareFix.mount_unit_name (fun _ => some ⟨0, strBytes "x.mount\n", []⟩) =
      .ok (rustTrim (String.mk ("x.mount\n".data))) :=
  (mount_unit_name_trims_stdout (fun _ => some ⟨0, strBytes "x.mount\n", []⟩) shareFix
    ⟨0, strBytes "x.mount\n", []⟩ ("x.mount\n".data) rfl (by decide)).1

/-- When every share renders its arguments without panicking, `collectShareArgs`
is the in-order concatenation of the per-share argument lists. -/
theorem collectShareArgs_of_all_some :
    ∀ (l : List VirtiofsShare), (∀ sh ∈ l, (VirtiofsShare.qemu_args sh).isSome) →
    collectShareArgs l =
      some ((l.map (fun sh => (VirtiofsShare.qemu_args sh).getD [])).flatten) := by
  intro l
  induction l with
  | nil =>
    intro _
    rfl
  | cons a t ih =>
    intro h
    obtain ⟨la, hla⟩ := Option.isSome_iff_exists.mp (h a (List.mem_cons_self a t))
    have ht := ih (fun sh hsh => h sh (List.mem_cons_of_mem a hsh))
    simp [collectShareArgs, hla, ht]

/-- Any successfully rendered per-share argument list has the fixed shape
`-chardev`, value, `-device`, value. -/
theorem qemu_args_shape (sh : VirtiofsShare) (l : List String)
    (h : sh.qemu_args = some l) : ∃ b d, l = ["-chardev", b, "-device", d] := by
  unfold VirtiofsShare.qemu_args at h
  cases hp : pathToStr sh.socket_path with
  | none =>
    rw [hp] at h
    cases h
  | some sock =>
    rw [hp] at h
    cases h
    exact ⟨_, _, rfl⟩

/-- C3: whenever no share panics and the setup share renders, `Shares::qemu_args`
is exactly the concatenation of every share contribution in list order, then the
legacy bootstrap (setup share) arguments, then the memory backend arguments; and
each share contribution is a chardev token pair followed by a device token pair. -/
theorem shares_qemu_args_concat (s : Shares) (setup : List String)
    (hall : ∀ sh ∈ s.shares, (VirtiofsShare.qemu_args sh).isSome)
    (hsetup : s.setup_share_qemu_args = some setup) :
    s.qemu_args =
      some ((s.shares.map (fun sh => (VirtiofsShare.qemu_args sh).getD [])).flatten
        ++ setup ++ s.memory_file_qemu_args) ∧
    ∀ sh ∈ s.shares, ∃ b d,
      (VirtiofsShare.qemu_args sh).getD [] = ["-chardev", b, "-device", d] := by
  constructor
  · unfold Shares.qemu_args
    rw [collectShareArgs_of_all_some s.shares hall, hsetup]
  · intro sh hsh
    obtain ⟨l, hl⟩ := Option.isSome_iff_exists.mp (hall sh hsh)
    obtain ⟨b, d, hbd⟩ := qemu_args_shape sh l hl
    refine ⟨b, d, ?_⟩
    rw [hl]
    exact hbd

/-- The one-share `Shares` value of the source test `test_shares` (with a
UTF-8 unit file directory `/tmp/unit`). -/
def sharesFix : Shares := ⟨[shareFix], 1024, strBytes "/tmp/unit"⟩

/-- C3 witness: for the one-share set of the source test, the full argument
vector is the share tokens, then the `-virtfs` bootstrap tokens, then the
memory backend tokens. -/
theorem shares_qemu_args_concat_witness :
    sharesFix.qemu_args =
      some ((sharesFix.shares.map (fun sh => (VirtiofsShare.qemu_args sh).getD [])).flatten
        ++ ["-virtfs",
            "local,path=/tmp/unit,security_model=none,multidevs=remap,mount_tag=exports,readonly=on"]
        ++ sharesFix.memory_file_qemu_args) :=
  (shares_qemu_args_concat sharesFix
    ["-virtfs",
     "local,path=/tmp/unit,security_model=none,multidevs=remap,mount_tag=exports,readonly=on"]
    (by decide) (by decide)).1

/-- Looking up the inserted path finds the inserted contents. -/
theorem fsGet_fsInsert_self (fs : Fs) (p : PathB) (c : List Nat) :
    fsGet (fsInsert fs p c) p = some c := by
  induction fs with
  | nil => simp [fsInsert, fsGet]
  | cons e rest ih =>
    obtain ⟨q, c0⟩ := e
    by_cases h : q = p
    · subst h
      simp [fsInsert, fsGet]
    · simp [fsInsert, fsGet, h, ih]

/-- Inserting at one path leaves every other path unchanged. -/
theorem fsGet_fsInsert_ne (fs : Fs) (p q : PathB) (c : List Nat) (h : q ≠ p) :
    fsGet (fsInsert fs p c) q = fsGet fs q := by
  have hpq : p ≠ q := Ne.symm h
  induction fs with
  | nil => simp [fsInsert, fsGet, hpq]
  | cons e rest ih =>
    obtain ⟨r, c0⟩ := e
    by_cases hr : r = p
    · subst hr
      simp [fsInsert, fsGet, hpq]
    · simp [fsInsert, fsGet, hr, ih]

/-- Inserting never removes an existing file. -/
theorem fsGet_fsInsert_isSome (fs : Fs) (p q : PathB) (c : List Nat)
    (h : (fsGet fs q).isSome) : (fsGet (fsInsert fs p c) q).isSome := by
  by_cases hq : q = p
  · subst hq
    rw [fsGet_fsInsert_self]
    rfl
  · rw [fsGet_fsInsert_ne fs p q c hq]
    exact h

/-- Inserting at an absent path grows the file count by one. -/
theorem fsInsert_length_of_none (fs : Fs) (p : PathB) (c : List Nat)
    (h : fsGet fs p = none) : (fsInsert fs p c).length = fs.length + 1 := by
  induction fs with
  | nil => rfl
  | cons e rest ih =>
    obtain ⟨r, c0⟩ := e
    by_cases hr : r = p
    · subst hr
      simp [fsGet] at h
    · simp [fsGet, hr] at h
      simp [fsInsert, hr, ih h]

/-- Inserting at a present path keeps the file count. -/
theorem fsInsert_length_of_some (fs : Fs) (p : PathB) (c : List Nat)
    (h : (fsGet fs p).isSome) : (fsInsert fs p c).length = fs.length := by
  induction fs with
  | nil => simp [fsGet] at h
  | cons e rest ih =>
    obtain ⟨r, c0⟩ := e
    by_cases hr : r = p
    · subst hr
      simp [fsInsert]
    · simp [fsGet, hr] at h
      simp [fsInsert, hr, ih h]

/-- The unit path a share writes to, computed from a successful unit name. -/
theorem unitPathOf_eq (esc : Escaper) (dir : PathB) (sh : VirtiofsShare) (name : String)
    (hname : sh.mount_unit_name esc = .ok name) :
    unitPathOf esc dir sh = pathJoin dir (strBytes name) := by
  simp [unitPathOf, unitNameOf, hname]

/-- The content bytes a share writes, computed from a successful rendering. -/
theorem contentBytesOf_eq (sh : VirtiofsShare) (content : String)
    (hcont : sh.mount_unit_content = some content) :
    contentBytesOf sh = strBytes content := by
  simp [contentBytesOf, hcont]

/-- One fully successful loop step recurses on the filesystem with the unit
file created and written. -/
theorem genLoop_cons_ok (esc : Escaper) (disk : IoOracle) (dir : PathB)
    (sh : VirtiofsShare) (rest : List VirtiofsShare) (fs : Fs)
    (name : String) (content : String)
    (hname : sh.mount_unit_name esc = .ok name)
    (hcont : sh.mount_unit_content = some content)
    (hcr : disk.createErr (pathJoin dir (strBytes name)) = none)
    (hwr : disk.writeErr (pathJoin dir (strBytes name)) = none) :
    genUnitFilesLoop esc disk dir (sh :: rest) fs =
      genUnitFilesLoop esc disk dir rest
        (fsInsert (fsInsert fs (pathJoin dir (strBytes name)) [])
          (pathJoin dir (strBytes name)) (strBytes content)) := by
  simp only [genUnitFilesLoop, hname, hcont, hcr, hwr]

/-- A step whose outcome is `.ok` decomposes into its four successful stages. -/
theorem stepOutcome_ok_elim (esc : Escaper) (disk : IoOracle) (dir : PathB)
    (sh : VirtiofsShare) (h : stepOutcome esc disk dir sh = .ok) :
    ∃ name content, sh.mount_unit_name esc = .ok name ∧
      sh.mount_unit_content = some content ∧
      disk.createErr (pathJoin dir (strBytes name)) = none ∧
      disk.writeErr (pathJoin dir (strBytes name)) = none := by
  cases hname : sh.mount_unit_name esc with
  | error e0 =>
    simp [stepOutcome, hname] at h
  | ok name =>
    cases hcont : sh.mount_unit_content with
    | none =>
      simp [stepOutcome, hname, hcont] at h
    | some content =>
      cases hcr : disk.createErr (pathJoin dir (strBytes name)) with
      | some e1 =>
        simp [stepOutcome, hname, hcont, hcr] at h
      | none =>
        cases hwr : disk.writeErr (pathJoin dir (strBytes name)) with
        | some e1 =>
          simp [stepOutcome, hname, hcont, hcr, hwr] at h
        | none =>
          exact ⟨name, content, rfl, rfl, hcr, hwr⟩

/-- A step whose outcome is an error stops the loop there with that error; the
resulting filesystem does not depend on the remaining shares and retains every
existing file. -/
theorem genLoop_cons_err (esc : Escaper) (disk : IoOracle) (dir : PathB)
    (sh : VirtiofsShare) (e : ShareError)
    (hstep : stepOutcome esc disk dir sh = .err e) :
    ∃ fs1 : Fs → Fs,
      (∀ rest fs, genUnitFilesLoop esc disk dir (sh :: rest) fs = some (fs1 fs, .error e)) ∧
      ∀ fs q, (fsGet fs q).isSome → (fsGet (fs1 fs) q).isSome := by
  cases hname : sh.mount_unit_name esc with
  | error e0 =>
    have he : e0 = e := by
      simp only [stepOutcome, hname] at hstep
      injection hstep
    subst he
    exact ⟨id, fun rest fs => by simp only [genUnitFilesLoop, hname, id], fun fs q h => h⟩
  | ok name =>
    cases hcont : sh.mount_unit_content with
    | none =>
      simp [stepOutcome, hname, hcont] at hstep
    | some content =>
      cases hcr : disk.createErr (pathJoin dir (strBytes name)) with
      | some e1 =>
        have he : ShareError.mountUnitGenerationError e1 = e := by
          simp only [stepOutcome, hname, hcont, hcr] at hstep
          injection hstep
        subst he
        exact ⟨id,
          fun rest fs => by simp only [genUnitFilesLoop, hname, hcont, hcr, id],
          fun fs q h => h⟩
      | none =>
        cases hwr : disk.writeErr (pathJoin dir (strBytes name)) with
        | some e1 =>
          have he : ShareError.mountUnitGenerationError e1 = e := by
            simp only [stepOutcome, hname, hcont, hcr, hwr] at hstep
            injection hstep
          subst he
          refine ⟨fun fs => fsInsert fs (pathJoin dir (strBytes name)) [],
            fun rest fs => by simp only [genUnitFilesLoop, hname, hcont, hcr, hwr],
            fun fs q h => fsGet_fsInsert_isSome _ _ _ _ h⟩
        | none =>
          simp [stepOutcome, hname, hcont, hcr, hwr] at hstep

/-- A finishing loop never loses a file present when it started. -/
theorem genLoop_mono (esc : Escaper) (disk : IoOracle) (dir : PathB) :
    ∀ (l : List VirtiofsShare) (fs fs' : Fs) (r : Except ShareError Unit) (q : PathB),
      genUnitFilesLoop esc disk dir l fs = some (fs', r) →
      (fsGet fs q).isSome → (fsGet fs' q).isSome := by
  intro l
  induction l with
  | nil =>
    intro fs fs' r q h hq
    simp only [genUnitFilesLoop, Option.some.injEq, Prod.mk.injEq] at h
    rw [← h.1]
    exact hq
  | cons a t ih =>
    intro fs fs' r q h hq
    cases hname : a.mount_unit_name esc with
    | error e0 =>
      simp only [genUnitFilesLoop, hname, Option.some.injEq, Prod.mk.injEq] at h
      rw [← h.1]
      exact hq
    | ok name =>
      cases hcont : a.mount_unit_content with
      | none =>
        simp only [genUnitFilesLoop, hname, hcont] at h
        exact Option.noConfusion h
      | some content =>
        cases hcr : disk.createErr (pathJoin dir (strBytes name)) with
        | some e1 =>
          simp only [genUnitFilesLoop, hname, hcont, hcr, Option.some.injEq,
            Prod.mk.injEq] at h
          rw [← h.1]
          exact hq
        | none =>
          cases hwr : disk.writeErr (pathJoin dir (strBytes name)) with
          | some e1 =>
            simp only [genUnitFilesLoop, hname, hcont, hcr, hwr, Option.some.injEq,
              Prod.mk.injEq] at h
            rw [← h.1]
            exact fsGet_fsInsert_isSome _ _ _ _ hq
          | none =>
            rw [genLoop_cons_ok esc disk dir a t fs name content hname hcont hcr hwr] at h
            exact ih _ _ _ _ h
              (fsGet_fsInsert_isSome _ _ _ _ (fsGet_fsInsert_isSome _ _ _ _ hq))

/-- A finishing loop leaves every path outside the unit paths of its shares
untouched. -/
theorem genLoop_untouched (esc : Escaper) (disk : IoOracle) (dir : PathB) :
    ∀ (l : List VirtiofsShare) (fs fs' : Fs) (r : Except ShareError Unit) (q : PathB),
      genUnitFilesLoop esc disk dir l fs = some (fs', r) →
      (∀ sh ∈ l, unitPathOf esc dir sh ≠ q) → fsGet fs' q = fsGet fs q := by
  intro l
  induction l with
  | nil =>
    intro fs fs' r q h _
    simp only [genUnitFilesLoop, Option.some.injEq, Prod.mk.injEq] at h
    rw [← h.1]
  | cons a t ih =>
    intro fs fs' r q h hne
    have hna : unitPathOf esc dir a ≠ q := hne a (List.mem_cons_self a t)
    cases hname : a.mount_unit_name esc with
    | error e0 =>
      simp only [genUnitFilesLoop, hname, Option.some.injEq, Prod.mk.injEq] at h
      rw [← h.1]
    | ok name =>
      have hpq : pathJoin dir (strBytes name) ≠ q := by
        rw [← unitPathOf_eq esc dir a name hname]
        exact hna
      have hqp : q ≠ pathJoin dir (strBytes name) := Ne.symm hpq
      cases hcont : a.mount_unit_content with
      | none =>
        simp only [genUnitFilesLoop, hname, hcont] at h
        exact Option.noConfusion h
      | some content =>
        cases hcr : disk.createErr (pathJoin dir (strBytes name)) with
        | some e1 =>
          simp only [genUnitFilesLoop, hname, hcont, hcr, Option.some.injEq,
            Prod.mk.injEq] at h
          rw [← h.1]
        | none =>
          cases hwr : disk.writeErr (pathJoin dir (strBytes name)) with
          | some e1 =>
            simp only [genUnitFilesLoop, hname, hcont, hcr, hwr, Option.some.injEq,
              Prod.mk.injEq] at h
            rw [← h.1]
            exact fsGet_fsInsert_ne _ _ _ _ hqp
          | none =>
            rw [genLoop_cons_ok esc disk dir a t fs name content hname hcont hcr hwr] at h
            rw [ih _ _ _ _ h (fun sh hsh => hne sh (List.mem_cons_of_mem a hsh))]
            rw [fsGet_fsInsert_ne _ _ _ _ hqp, fsGet_fsInsert_ne _ _ _ _ hqp]

/-- When every step succeeds, the loop finishes `.ok`; with pairwise-distinct
unit paths every share ends with its own contents on disk, and starting from a
state without those files the file count grows by exactly one per share. -/
theorem genLoop_ok (esc : Escaper) (disk : IoOracle) (dir : PathB) :
    ∀ (l : List VirtiofsShare) (fs : Fs),
      (∀ sh ∈ l, stepOutcome esc disk dir sh = .ok) →
      ∃ fs', genUnitFilesLoop esc disk dir l fs = some (fs', .ok ()) ∧
        ((l.Pairwise fun a b => unitPathOf esc dir a ≠ unitPathOf esc dir b) →
          ∀ sh ∈ l, fsGet fs' (unitPathOf esc dir sh) = some (contentBytesOf sh)) ∧
        ((∀ sh ∈ l, fsGet fs (unitPathOf esc dir sh) = none) →
          (l.Pairwise fun a b => unitPathOf esc dir a ≠ unitPathOf esc dir b) →
          fs'.length = fs.length + l.length) := by
  intro l
  induction l with
  | nil =>
    intro fs _
    exact ⟨fs, rfl, fun _ sh hsh => absurd hsh (List.not_mem_nil sh), fun _ _ => rfl⟩
  | cons a t ih =>
    intro fs hsteps
    obtain ⟨name, content, hname, hcont, hcr, hwr⟩ :=
      stepOutcome_ok_elim esc disk dir a (hsteps a (List.mem_cons_self a t))
    have hup : unitPathOf esc dir a = pathJoin dir (strBytes name) :=
      unitPathOf_eq esc dir a name hname
    have hcb : contentBytesOf a = strBytes content :=
      contentBytesOf_eq a content hcont
    set p := pathJoin dir (strBytes name) with hp
    set fs2 := fsInsert (fsInsert fs p []) p (strBytes content) with hfs2
    obtain ⟨fs', hloop, hcontent, hlen⟩ :=
      ih fs2 (fun sh hsh => hsteps sh (List.mem_cons_of_mem a hsh))
    refine ⟨fs', ?_, ?_, ?_⟩
    · rw [genLoop_cons_ok esc disk dir a t fs name content hname hcont hcr hwr]
      exact hloop
    · intro hpw sh hsh
      rw [List.pairwise_cons] at hpw
      rcases List.mem_cons.mp hsh with hsha | hsht
      · subst hsha
        have huntouch : fsGet fs' (unitPathOf esc dir sh) = fsGet fs2 (unitPathOf esc dir sh) :=
          genLoop_untouched esc disk dir t fs2 fs' (.ok ()) (unitPathOf esc dir sh) hloop
            (fun b hb => (hpw.1 b hb).symm)
        rw [huntouch, hup, hfs2, fsGet_fsInsert_self, hcb]
      · exact hcontent hpw.2 sh hsht
    · intro habsent hpw
      rw [List.pairwise_cons] at hpw
      have habsent2 : ∀ sh ∈ t, fsGet fs2 (unitPathOf esc dir sh) = none := by
        intro sh hsh
        have hne : unitPathOf esc dir sh ≠ p := by
          rw [← hup]
          exact fun hh => hpw.1 sh hsh hh.symm
        rw [hfs2, fsGet_fsInsert_ne _ _ _ _ hne, fsGet_fsInsert_ne _ _ _ _ hne]
        exact habsent sh (List.mem_cons_of_mem a hsh)
      have hlena : fs2.length = fs.length + 1 := by
        rw [hfs2]
        rw [fsInsert_length_of_some]
        · exact fsInsert_length_of_none fs p [] (by rw [← hup]; exact habsent a (List.mem_cons_self a t))
        · rw [fsGet_fsInsert_self]
          rfl
      rw [hlen habsent2 hpw.2, hlena]
      simp [List.length_cons]
      omega

/-- Fail-fast: with every share before `bad` succeeding and `bad` failing, the
loop stops at `bad` with its error, the shares after `bad` are never consulted
(the result is the same as running the list truncated right after `bad`), and
the files written for the earlier shares are still present. -/
theorem genLoop_failfast (esc : Escaper) (disk : IoOracle) (dir : PathB) (e : ShareError) :
    ∀ (l1 : List VirtiofsShare) (bad : VirtiofsShare) (l2 : List VirtiofsShare) (fs : Fs),
      (∀ sh ∈ l1, stepOutcome esc disk dir sh = .ok) →
      stepOutcome esc disk dir bad = .err e →
      ∃ fs', genUnitFilesLoop esc disk dir (l1 ++ bad :: l2) fs = some (fs', .error e) ∧
        genUnitFilesLoop esc disk dir (l1 ++ [bad]) fs = some (fs', .error e) ∧
        ∀ sh ∈ l1, (fsGet fs' (unitPathOf esc dir sh)).isSome := by
  intro l1
  induction l1 with
  | nil =>
    intro bad l2 fs _ hbad
    obtain ⟨fs1, hrun, _⟩ := genLoop_cons_err esc disk dir bad e hbad
    exact ⟨fs1 fs, hrun l2 fs, hrun [] fs,
      fun sh hsh => absurd hsh (List.not_mem_nil sh)⟩
  | cons a t ih =>
    intro bad l2 fs hok hbad
    obtain ⟨name, content, hname, hcont, hcr, hwr⟩ :=
      stepOutcome_ok_elim esc disk dir a (hok a (List.mem_cons_self a t))
    have hup : unitPathOf esc dir a = pathJoin dir (strBytes name) :=
      unitPathOf_eq esc dir a name hname
    set p := pathJoin dir (strBytes name) with hp
    set fs2 := fsInsert (fsInsert fs p []) p (strBytes content) with hfs2
    obtain ⟨fs', hrun, htrunc, hkeep⟩ :=
      ih bad l2 fs2 (fun sh hsh => hok sh (List.mem_cons_of_mem a hsh)) hbad
    refine ⟨fs', ?_, ?_, ?_⟩
    · rw [List.cons_append, genLoop_cons_ok esc disk dir a (t ++ bad :: l2) fs
        name content hname hcont hcr hwr]
      exact hrun
    · rw [List.cons_append, genLoop_cons_ok esc disk dir a (t ++ [bad]) fs
        name content hname hcont hcr hwr]
      exact htrunc
    · intro sh hsh
      rcases List.mem_cons.mp hsh with hsha | hsht
      · subst hsha
        have hin2 : (fsGet fs2 (unitPathOf esc dir sh)).isSome := by
          rw [hup, hfs2, fsGet_fsInsert_self]
          rfl
        exact genLoop_mono esc disk dir (t ++ bad :: l2) fs2 fs' (.error e)
          (unitPathOf esc dir sh) hrun hin2
      · exact hkeep sh hsht

/-- C7 (amended): `generate_unit_files` processes the shares in list order and
stops at the first failing share with its error (later shares are not
consulted and every earlier share keeps its written file); every failure is
either the name failure `InvalidMountTagError` or an I/O failure wrapped as
`MountUnitGenerationError`; and on an all-successful run over shares with
pairwise-distinct unit names, starting from a state holding none of those
files, each share ends with exactly its own contents on disk and exactly one
file is created per share. -/
theorem generate_unit_files_spec (esc : Escaper) (disk : IoOracle) (s : Shares) (fs : Fs) :
    (∀ l1 bad l2 e, s.shares = l1 ++ bad :: l2 →
      (∀ sh ∈ l1, stepOutcome esc disk s.unit_files_dir sh = .ok) →
      stepOutcome esc disk s.unit_files_dir bad = .err e →
      ∃ fs', s.generate_unit_files esc disk fs = some (fs', .error e) ∧
        genUnitFilesLoop esc disk s.unit_files_dir (l1 ++ [bad]) fs = some (fs', .error e) ∧
        ∀ sh ∈ l1, (fsGet fs' (unitPathOf esc s.unit_files_dir sh)).isSome) ∧
    (∀ sh e, stepOutcome esc disk s.unit_files_dir sh = .err e →
      (∃ p, e = .invalidMountTagError p) ∨ ∃ ioe, e = .mountUnitGenerationError ioe) ∧
    ((∀ sh ∈ s.shares, stepOutcome esc disk s.unit_files_dir sh = .ok) →
      (s.shares.Pairwise fun a b =>
        unitPathOf esc s.unit_files_dir a ≠ unitPathOf esc s.unit_files_dir b) →
      (∀ sh ∈ s.shares, fsGet fs (unitPathOf esc s.unit_files_dir sh) = none) →
      ∃ fs', s.generate_unit_files esc disk fs = some (fs', .ok ()) ∧
        (∀ sh ∈ s.shares,
          fsGet fs' (unitPathOf esc s.unit_files_dir sh) = some (contentBytesOf sh)) ∧
        fs'.length = fs.length + s.shares.length) := by
  refine ⟨?_, ?_, ?_⟩
  · intro l1 bad l2 e hdecomp hok hbad
    obtain ⟨fs', hrun, htrunc, hkeep⟩ :=
      genLoop_failfast esc disk s.unit_files_dir e l1 bad l2 fs hok hbad
    refine ⟨fs', ?_, htrunc, hkeep⟩
    unfold Shares.generate_unit_files
    rw [hdecomp]
    exact hrun
  · intro sh e hstep
    cases hname : sh.mount_unit_name esc with
    | error e0 =>
      refine Or.inl ?_
      simp only [stepOutcome, hname] at hstep
      cases hstep
      cases hname2 : sh.mount_unit_name esc with
      | error e1 => exact ⟨sh.opts.path, by
          cases hesc : esc sh.opts.path with
          | none =>
            have := mount_unit_name_of_none esc sh hesc
            rw [this] at hname
            cases hname
            rfl
          | some out =>
            cases hdec : utf8Decode out.stdout with
            | none =>
              have := mount_unit_name_of_bad_utf8 esc sh out hesc hdec
              rw [this] at hname
              cases hname
              rfl
            | some cs =>
              have := mount_unit_name_of_ok esc sh out cs hesc hdec
              rw [this] at hname
              cases hname⟩
      | ok name => exact ⟨sh.opts.path, by
          cases hesc : esc sh.opts.path with
          | none =>
            have := mount_unit_name_of_none esc sh hesc
            rw [this] at hname
            cases hname
            rfl
          | some out =>
            cases hdec : utf8Decode out.stdout with
            | none =>
              have := mount_unit_name_of_bad_utf8 esc sh out hesc hdec
              rw [this] at hname
              cases hname
              rfl
            | some cs =>
              have := mount_unit_name_of_ok esc sh out cs hesc hdec
              rw [this] at hname
              cases hname⟩
    | ok name =>
      refine Or.inr ?_
      cases hcont : sh.mount_unit_content with
      | none =>
        simp [stepOutcome, hname, hcont] at hstep
      | some content =>
        cases hcr : disk.createErr (pathJoin s.unit_files_dir (strBytes name)) with
        | some e1 =>
          simp only [stepOutcome, hname, hcont, hcr] at hstep
          cases hstep
          exact ⟨e1, rfl⟩
        | none =>
          cases hwr : disk.writeErr (pathJoin s.unit_files_dir (strBytes name)) with
          | some e1 =>
            simp only [stepOutcome, hname, hcont, hcr, hwr] at hstep
            cases hstep
            exact ⟨e1, rfl⟩
          | none =>
            simp [stepOutcome, hname, hcont, hcr, hwr] at hstep
  · intro hok hpw habsent
    exact genLoop_ok esc disk s.unit_files_dir s.shares fs hok |>.elim
      (fun fs' h => ⟨fs', h.1, h.2.1 hpw, h.2.2 habsent hpw⟩)

/-- An escaper fixture returning `this-is-a-test.mount` plus newline, as the
real `systemd-escape --suffix=mount --path /this/is/a/test` does. -/
def escFixT : Escaper := fun _ => some ⟨0, strBytes "this-is-a-test.mount\n", []⟩

/-- A disk on which every create and write succeeds. -/
def diskOk : IoOracle := ⟨fun _ => none, fun _ => none⟩

/-- A disk on which every `File::create` fails with error code 28 (disk full). -/
def diskFull : IoOracle := ⟨fun _ => some ⟨28⟩, fun _ => none⟩

/-- C7 witness: on the one-share set of the source test, a fully successful run
writes exactly one file with the share contents, and a run whose first create
fails stops with `MountUnitGenerationError` at that share. -/
theorem generate_unit_files_spec_witness :
    (∃ fs', sharesFix.generate_unit_files escFixT diskOk [] = some (fs', .ok ()) ∧
      (∀ sh ∈ sharesFix.shares,
        fsGet fs' (unitPathOf escFixT sharesFix.unit_files_dir sh) =
          some (contentBytesOf sh)) ∧
      fs'.length = ([] : Fs).length + sharesFix.shares.length) ∧
    (∃ fs', sharesFix.generate_unit_files escFixT diskFull [] =
        some (fs', .error (.mountUnitGenerationError ⟨28⟩)) ∧
      genUnitFilesLoop escFixT diskFull sharesFix.unit_files_dir ([] ++ [shareFix]) [] =
        some (fs', .error (.mountUnitGenerationError ⟨28⟩)) ∧
      ∀ sh ∈ ([] : List VirtiofsShare),
        (fsGet fs' (unitPathOf escFixT sharesFix.unit_files_dir sh)).isSome) :=
  ⟨(generate_unit_files_spec escFixT diskOk sharesFix []).2.2
      (by decide) (List.pairwise_singleton _ _) (fun sh _ => rfl),
   (generate_unit_files_spec escFixT diskFull sharesFix []).1 [] shareFix []
      (.mountUnitGenerationError ⟨28⟩) rfl
      (fun sh hsh => absurd hsh (List.not_mem_nil sh)) (by decide)⟩

/-- An escaper fixture mapping every path to the unit name `a.mount`. -/
def escDup : Escaper := fun _ => some ⟨0, strBytes "a.mount\n", []⟩

/-- Two shares over the same path `/d` (so the same escaped unit name) with
different indices, hence different default tags and different unit contents. -/
def shareDup0 : VirtiofsShare := ⟨⟨strBytes "/d", true, none⟩, 0, strBytes "/tmp"⟩

/-- Companion of `shareDup0` with index 1. -/
def shareDup1 : VirtiofsShare := ⟨⟨strBytes "/d", true, none⟩, 1, strBytes "/tmp"⟩

/-- The two-share set sharing one path. -/
def sharesDup : Shares := ⟨[shareDup0, shareDup1], 1024, strBytes "/u"⟩

/-- C7 counterexample: two shares with the same path map to the same unit file
name, so a fully successful `generate_unit_files` run over these two shares
leaves exactly one file on disk — holding only the second share's contents —
refuting the claim that on success exactly one file per share exists holding
that share's `mount_unit_content`. -/
theorem generate_unit_files_overwrites_duplicate_name :
    sharesDup.generate_unit_files escDup diskOk [] =
      some ([(pathJoin (strBytes "/u") (strBytes "a.mount"), contentBytesOf shareDup1)],
        .ok ()) ∧
    sharesDup.shares.length = 2 ∧
    contentBytesOf shareDup0 ≠ contentBytesOf shareDup1 :=
  ⟨rfl, rfl, by decide⟩
